/-
Verification of the SQL tokenizer / Pratt expression parser / statement
parser (src/src/tokenizer.rs, src/src/parser.rs, src/src/statement.rs,
src/src/token.rs) against its specification.

The Rust code is shallowly embedded: the character cursor of the tokenizer
becomes a `List Char` (the unread suffix, whose head is `current_char`),
the token iterator becomes an explicit state machine, and the parser's
mutable `current_token` / tokenizer pair becomes a `ParserState`.  All
recursive parser functions take an explicit fuel argument (the Rust
functions recurse on the heap/call stack); a theorem below shows that a
fuel linear in the token count is always sufficient, which is the
termination property of the original program.
-/
import Mathlib

set_option maxHeartbeats 1600000

abbrev Str := String

abbrev BoolV := Bool

/-- Keywords, from src/src/token.rs (enum Keyword). -/
inductive Keyword where
  | Select | Create | Table | Where | Order | By | Asc | Desc | From
  | And | Or | Not | True | False | Primary | Key | Check | Int | Bool
  | Varchar | Null
deriving DecidableEq

/-- Tokens, from src/src/token.rs (enum Token).  Rust's `u64` payload of
`Number` is modelled as a `Nat`; the tokenizer only produces values below
2^64 (see `parseU64`). -/
inductive Token where
  | Keyword : Keyword → Token
  | Identifier : Str → Token
  | String : Str → Token
  | Number : Nat → Token
  | Invalid : Char → Token
  | RightParentheses | LeftParentheses
  | GreaterThan | GreaterThanOrEqual | LessThan | LessThanOrEqual
  | Equal | NotEqual | Star | Divide | Minus | Plus | Comma | Semicolon
  | Eof
deriving DecidableEq

/-- Binary operators, from src/src/statement.rs (enum BinaryOperator). -/
inductive BinaryOperator where
  | Plus | Minus | Multiply | Divide
  | GreaterThan | GreaterThanOrEqual | LessThan | LessThanOrEqual
  | Equal | NotEqual | And | Or
deriving DecidableEq

/-- Unary operators, from src/src/statement.rs (enum UnaryOperator). -/
inductive UnaryOperator where
  | Not | Plus | Minus | Asc | Desc
deriving DecidableEq

/-- Expressions, from src/src/statement.rs (enum Expression).  The
`Wildcard` constructor is the wildcard-marker column used by
`Parser::parse_select_statement` (parser.rs line 297, `Expression::Wildcard`)
and asserted by tests/parser_test.rs; the enum declaration in
src/src/statement.rs (lines 365-379) omits this variant, so the crate as
shipped does not compile — the constructor is modelled from the parser's
use of it. -/
inductive Expression where
  | BinaryOperation : Expression → BinaryOperator → Expression → Expression
  | UnaryOperation : Expression → UnaryOperator → Expression
  | Number : Nat → Expression
  | Bool : BoolV → Expression
  | Identifier : Str → Expression
  | String : Str → Expression
  | Wildcard
deriving DecidableEq

/-- Column types, from src/src/statement.rs (enum DBType). -/
inductive DBType where
  | Int
  | Varchar : Nat → DBType
  | Bool
deriving DecidableEq

/-- Column constraints, from src/src/statement.rs (enum Constraint). -/
inductive Constraint where
  | NotNull
  | PrimaryKey
  | Check : Expression → Constraint
deriving DecidableEq

/-- Column definition, from src/src/statement.rs (struct TableColumn). -/
structure TableColumn where
  column_name : Str
  column_type : DBType
  constraints : List Constraint
deriving DecidableEq

/-- Statements, from src/src/statement.rs (enum Statement).  Rust's raw
field name `r#where` is rendered `whereClause`. -/
inductive Statement where
  | Select : List Expression → Str → Option Expression → List Expression → Statement
  | CreateTable : Str → List TableColumn → Statement
deriving DecidableEq

/- ===================== Tokenizer (src/src/tokenizer.rs) =====================

The tokenizer's cursor (`input : Peekable<Chars>` plus `current_char`) is the
list of characters not yet consumed, with `current_char` the head.  Rust's
Unicode character classes `char::is_whitespace` / `char::is_alphanumeric`
and `str::to_uppercase` are modelled by their ASCII restrictions
(`Char.isWhitespace`, `Char.isAlphanum`, `Char.toUpper`); every claim below
is insensitive to that restriction (no claim distinguishes a non-ASCII
letter from any other unrecognized character). -/

/-- Tokenizer::skip_whitespace. -/
def skip_whitespace (s : List Char) : List Char := s.dropWhile Char.isWhitespace

/-- Continuation characters of an identifier/keyword run
(`c.is_alphanumeric() || c == '_'` in Tokenizer::read_identifier_or_keyword). -/
def isIdentChar (c : Char) : Bool := c.isAlphanum || c = '_'

/-- Numeric value of a maximal digit run. -/
def digitsToNat (ds : List Char) : Nat :=
  ds.foldl (fun a c => 10 * a + (c.toNat - 48)) 0

/-- Rust's `str::parse::<u64>` on a run of decimal digits: fails on the
empty string and on overflow past 2^64 - 1, otherwise returns the value. -/
def parseU64 (ds : List Char) : Option Nat :=
  if ds.isEmpty then none
  else if digitsToNat ds < 2 ^ 64 then some (digitsToNat ds) else none

/-- Tokenizer::read_number: consume the maximal digit run; an unparsable
(overflowing) run degrades to `Token.Invalid '0'`. -/
def read_number (s : List Char) : Token × List Char :=
  (match parseU64 (s.takeWhile Char.isDigit) with
   | some n => Token.Number n
   | none => Token.Invalid '0',
   s.dropWhile Char.isDigit)

/-- The keyword table of Tokenizer::read_identifier_or_keyword, applied to
the uppercased run; the argument `id` is the run with original casing.
The `"NOT NULL"` entry is transcribed from the source (tokenizer.rs line
88) even though the dead-code theorem below shows it is unreachable. -/
def keyword_or_ident (id : Str) : Token :=
  let upper : Str := String.mk (id.data.map Char.toUpper)
  if upper = "SELECT" then Token.Keyword Keyword.Select
  else if upper = "CREATE" then Token.Keyword Keyword.Create
  else if upper = "TABLE" then Token.Keyword Keyword.Table
  else if upper = "WHERE" then Token.Keyword Keyword.Where
  else if upper = "ORDER" then Token.Keyword Keyword.Order
  else if upper = "BY" then Token.Keyword Keyword.By
  else if upper = "ASC" then Token.Keyword Keyword.Asc
  else if upper = "DESC" then Token.Keyword Keyword.Desc
  else if upper = "FROM" then Token.Keyword Keyword.From
  else if upper = "AND" then Token.Keyword Keyword.And
  else if upper = "OR" then Token.Keyword Keyword.Or
  else if upper = "NOT" then Token.Keyword Keyword.Not
  else if upper = "TRUE" then Token.Keyword Keyword.True
  else if upper = "FALSE" then Token.Keyword Keyword.False
  else if upper = "PRIMARY" then Token.Keyword Keyword.Primary
  else if upper = "KEY" then Token.Keyword Keyword.Key
  else if upper = "CHECK" then Token.Keyword Keyword.Check
  else if upper = "INT" then Token.Keyword Keyword.Int
  else if upper = "BOOL" then Token.Keyword Keyword.Bool
  else if upper = "VARCHAR" then Token.Keyword Keyword.Varchar
  else if upper = "NULL" then Token.Keyword Keyword.Null
  else if upper = "NOT NULL" then Token.Keyword Keyword.Null
  else Token.Identifier id

/-- Tokenizer::read_identifier_or_keyword: consume the maximal
alphanumeric/underscore run, then look it up in the keyword table. -/
def read_identifier_or_keyword (s : List Char) : Token × List Char :=
  (keyword_or_ident (String.mk (s.takeWhile isIdentChar)), s.dropWhile isIdentChar)

/-- The loop of Tokenizer::read_string, after the opening quote has been
skipped; `acc` is the accumulated `string_value`. -/
def read_string_go (q : Char) (acc : List Char) :
    List Char → (Except Str Token × List Char)
  | [] => (Except.error ("Unterminated string starting with " ++ String.singleton q), [])
  | c :: rest =>
    if c = '\'' ∨ c = '"' then
      if c = q then (Except.ok (Token.String (String.mk acc)), rest)
      else
        -- advance past the mismatched quote, then report the error
        (Except.error ("Mismatched quotes: string started with " ++
          String.singleton q ++ " but found " ++ String.singleton c), rest)
    else read_string_go q (acc ++ [c]) rest

/-- Tokenizer::read_string: the cursor `s` still starts at the opening
quote `q`; the first `advance` of the Rust function skips it. -/
def read_string (q : Char) (s : List Char) : Except Str Token × List Char :=
  read_string_go q [] (s.drop 1)

/-- Wrap a tokenizer sub-result in `Ok`, as `next_token` does. -/
def okTok (x : Token × List Char) : Except Str Token × List Char :=
  (Except.ok x.1, x.2)

/-- Tokenizer::next_token.  Returns the produced token (or string error)
together with the cursor after it; Rust mutates `self` instead. -/
def next_token (s : List Char) : Except Str Token × List Char :=
  match skip_whitespace s with
  | [] => (Except.ok Token.Eof, [])
  | c :: rest =>
    if c.isDigit then okTok (read_number (c :: rest))
    else if c.isAlpha ∨ c = '_' then okTok (read_identifier_or_keyword (c :: rest))
    else if c = '"' ∨ c = '\'' then read_string c (c :: rest)
    else if c = '(' then (Except.ok Token.LeftParentheses, rest)
    else if c = ')' then (Except.ok Token.RightParentheses, rest)
    else if c = ',' then (Except.ok Token.Comma, rest)
    else if c = ';' then (Except.ok Token.Semicolon, rest)
    else if c = '>' then
      match rest with
      | '=' :: rest2 => (Except.ok Token.GreaterThanOrEqual, rest2)
      | _ => (Except.ok Token.GreaterThan, rest)
    else if c = '<' then
      match rest with
      | '=' :: rest2 => (Except.ok Token.LessThanOrEqual, rest2)
      | _ => (Except.ok Token.LessThan, rest)
    else if c = '=' then (Except.ok Token.Equal, rest)
    else if c = '!' then
      match rest with
      | '=' :: rest2 => (Except.ok Token.NotEqual, rest2)
      | _ => (Except.ok (Token.Invalid '!'), rest)
    else if c = '*' then (Except.ok Token.Star, rest)
    else if c = '/' then (Except.ok Token.Divide, rest)
    else if c = '+' then (Except.ok Token.Plus, rest)
    else if c = '-' then (Except.ok Token.Minus, rest)
    else (Except.ok (Token.Invalid c), rest)

instance {e a : Type} [DecidableEq e] [DecidableEq a] : DecidableEq (Except e a)
  | Except.error x, Except.error y =>
    if h : x = y then Decidable.isTrue (congrArg Except.error h)
    else Decidable.isFalse (fun hh => h (Except.error.inj hh))
  | Except.error _, Except.ok _ => Decidable.isFalse (fun hh => Except.noConfusion hh)
  | Except.ok _, Except.error _ => Decidable.isFalse (fun hh => Except.noConfusion hh)
  | Except.ok x, Except.ok y =>
    if h : x = y then Decidable.isTrue (congrArg Except.ok h)
    else Decidable.isFalse (fun hh => h (Except.ok.inj hh))

/-- The Tokenizer struct (src/src/tokenizer.rs): the unread input together
with the `reached_end` EOF flag used by the Iterator implementation. -/
structure Tokenizer where
  input : List Char
  reached_end : Bool
deriving DecidableEq

/-- Tokenizer::new. -/
def Tokenizer.new (s : Str) : Tokenizer := ⟨s.data, false⟩

/-- One step of `impl Iterator for Tokenizer`: `none` means the iterator is
exhausted; otherwise the produced item and the successor state. -/
def Tokenizer.next (t : Tokenizer) : Option (Except Str Token) × Tokenizer :=
  if t.reached_end then (none, t)
  else
    let r := next_token t.input
    if r.1 = Except.ok Token.Eof then (some r.1, ⟨r.2, true⟩)
    else (some r.1, ⟨r.2, false⟩)

/-- The whole sequence of items produced by repeatedly calling
`Tokenizer.next` until it returns `none`, computed with fuel (structural
recursion so the kernel can evaluate it; `emitFuel_sufficient` shows the
fuel used by `Tokenizer.emit` is always enough, i.e. the iterator is
finite). -/
def Tokenizer.emitFuel : Nat → Tokenizer → List (Except Str Token)
  | 0, _ => []
  | fuel + 1, t =>
    if t.reached_end then []
    else
      let r := next_token t.input
      if r.1 = Except.ok Token.Eof then [r.1]
      else r.1 :: Tokenizer.emitFuel fuel ⟨r.2, false⟩

/-- The materialized item sequence of the iterator.  The parser below
consumes it element by element, so the laziness of the Rust iterator is
unobservable. -/
def Tokenizer.emit (t : Tokenizer) : List (Except Str Token) :=
  Tokenizer.emitFuel (t.input.length + 1) t

/- ===================== Parser (src/src/parser.rs) =====================

The Parser owns `current_token : Option<Token>` and the (peekable, but
never peeked) tokenizer.  Its state is embedded as the current token plus
the list of items the iterator has yet to yield.  Every recursive parsing
function takes a fuel argument and returns `none` when the fuel runs out;
the totality theorems below show a fuel linear in the token count never
runs out, so the fuel is a faithful rendering of Rust's unbounded
recursion. -/

/-- Parser state: `current_token` and the unconsumed tail of the token
iterator. -/
structure ParserState where
  current_token : Option Token
  rest : List (Except Str Token)
deriving DecidableEq

/-- Number of items the parser can still consume; the termination measure. -/
def psize (p : ParserState) : Nat :=
  p.rest.length + (match p.current_token with | some _ => 1 | none => 0)

/-- Parser::advance_token: pull one item from the tokenizer; a tokenizer
error aborts the parse. -/
def advance_token (p : ParserState) : Except Str ParserState :=
  match p.rest with
  | [] => Except.ok ⟨none, []⟩
  | Except.ok t :: r => Except.ok ⟨some t, r⟩
  | Except.error e :: _ => Except.error e

/-- Rust's `{:?}` (derived Debug) rendering of a token, used in parser
error messages.  Only non-emptiness of the messages matters to the spec;
Debug escaping of special characters inside string payloads is not
modelled (payloads are wrapped in plain quotes). -/
def Token.debugStr : Token → Str
  | Token.Keyword Keyword.Select => "Keyword(Select)"
  | Token.Keyword Keyword.Create => "Keyword(Create)"
  | Token.Keyword Keyword.Table => "Keyword(Table)"
  | Token.Keyword Keyword.Where => "Keyword(Where)"
  | Token.Keyword Keyword.Order => "Keyword(Order)"
  | Token.Keyword Keyword.By => "Keyword(By)"
  | Token.Keyword Keyword.Asc => "Keyword(Asc)"
  | Token.Keyword Keyword.Desc => "Keyword(Desc)"
  | Token.Keyword Keyword.From => "Keyword(From)"
  | Token.Keyword Keyword.And => "Keyword(And)"
  | Token.Keyword Keyword.Or => "Keyword(Or)"
  | Token.Keyword Keyword.Not => "Keyword(Not)"
  | Token.Keyword Keyword.True => "Keyword(True)"
  | Token.Keyword Keyword.False => "Keyword(False)"
  | Token.Keyword Keyword.Primary => "Keyword(Primary)"
  | Token.Keyword Keyword.Key => "Keyword(Key)"
  | Token.Keyword Keyword.Check => "Keyword(Check)"
  | Token.Keyword Keyword.Int => "Keyword(Int)"
  | Token.Keyword Keyword.Bool => "Keyword(Bool)"
  | Token.Keyword Keyword.Varchar => "Keyword(Varchar)"
  | Token.Keyword Keyword.Null => "Keyword(Null)"
  | Token.Identifier s => "Identifier(\"" ++ s ++ "\")"
  | Token.String s => "String(\"" ++ s ++ "\")"
  | Token.Number n => "Number(" ++ Nat.repr n ++ ")"
  | Token.Invalid c => "Invalid('" ++ String.singleton c ++ "')"
  | Token.RightParentheses => "RightParentheses"
  | Token.LeftParentheses => "LeftParentheses"
  | Token.GreaterThan => "GreaterThan"
  | Token.GreaterThanOrEqual => "GreaterThanOrEqual"
  | Token.LessThan => "LessThan"
  | Token.LessThanOrEqual => "LessThanOrEqual"
  | Token.Equal => "Equal"
  | Token.NotEqual => "NotEqual"
  | Token.Star => "Star"
  | Token.Divide => "Divide"
  | Token.Minus => "Minus"
  | Token.Plus => "Plus"
  | Token.Comma => "Comma"
  | Token.Semicolon => "Semicolon"
  | Token.Eof => "Eof"

/-- The precedence table of Parser::get_precedence (`u8` modelled as
`Nat`): 0 means "not an infix operator / end of expression group". -/
def token_precedence : Token → Nat
  | Token.Keyword Keyword.Asc | Token.Keyword Keyword.Desc => 1
  | Token.Keyword Keyword.Or => 2
  | Token.Keyword Keyword.And => 3
  | Token.Equal | Token.NotEqual
  | Token.GreaterThan | Token.GreaterThanOrEqual
  | Token.LessThan | Token.LessThanOrEqual => 4
  | Token.Plus | Token.Minus => 5
  | Token.Star | Token.Divide => 6
  | _ => 0

/-- Parser::get_precedence. -/
def get_precedence (p : ParserState) : Nat :=
  match p.current_token with
  | some t => token_precedence t
  | none => 0

/-- Rust's `?` operator on `advance_token`-style results, continuing into
a fueled computation: an `Err` aborts, `Ok` passes the new state on. -/
def ebind {β : Type} (r : Except Str ParserState)
    (f : ParserState → Option (Except Str β)) : Option (Except Str β) :=
  match r with
  | Except.error e => some (Except.error e)
  | Except.ok p1 => f p1

/-- Rust's `?` operator on value-returning fallible subparsers. -/
def ebind2 {α β : Type} (r : Except Str (α × ParserState))
    (f : α → ParserState → Option (Except Str β)) : Option (Except Str β) :=
  match r with
  | Except.error e => some (Except.error e)
  | Except.ok (a, p1) => f a p1

/-- Rust's `?` operator on fueled subparsers (`none` = out of fuel
propagates). -/
def obind2 {α β : Type} (r : Option (Except Str (α × ParserState)))
    (f : α → ParserState → Option (Except Str β)) : Option (Except Str β) :=
  match r with
  | none => none
  | some (Except.error e) => some (Except.error e)
  | some (Except.ok (a, p1)) => f a p1

/-- Rust's `?` operator inside non-fueled functions. -/
def ebindE {β : Type} (r : Except Str ParserState)
    (f : ParserState → Except Str β) : Except Str β :=
  match r with
  | Except.error e => Except.error e
  | Except.ok p1 => f p1

mutual

/-- Parser::parse_prefix: unary operations and primary expressions. -/
def parsePrefixForm : Nat → ParserState → Option (Except Str (Expression × ParserState))
  | 0, _ => none
  | fuel + 1, p =>
    match p.current_token with
    | some (Token.Number n) =>
      ebind (advance_token p) fun p1 => some (Except.ok (Expression.Number n, p1))
    | some (Token.String s) =>
      ebind (advance_token p) fun p1 => some (Except.ok (Expression.String s, p1))
    | some (Token.Identifier id) =>
      ebind (advance_token p) fun p1 => some (Except.ok (Expression.Identifier id, p1))
    | some (Token.Keyword Keyword.True) =>
      ebind (advance_token p) fun p1 => some (Except.ok (Expression.Bool true, p1))
    | some (Token.Keyword Keyword.False) =>
      ebind (advance_token p) fun p1 => some (Except.ok (Expression.Bool false, p1))
    | some (Token.Keyword Keyword.Not) => prefixUnaryStep fuel UnaryOperator.Not p
    | some Token.Plus => prefixUnaryStep fuel UnaryOperator.Plus p
    | some Token.Minus => prefixUnaryStep fuel UnaryOperator.Minus p
    | some Token.LeftParentheses =>
      ebind (advance_token p) fun p1 =>
      obind2 (parse_expression fuel 0 p1) fun ex p2 =>
      if p2.current_token = some Token.RightParentheses then
        ebind (advance_token p2) fun p3 => some (Except.ok (ex, p3))
      else some (Except.error "Expected closing parenthesis")
    | some t => some (Except.error ("Unexpected token in prefix position: " ++ t.debugStr))
    | none => some (Except.error "Unexpected end of input")

/-- The shared body of the `NOT`, unary `+` and unary `-` arms of
Parser::parse_prefix: advance past the operator, then parse the operand
at rank 6 ("NOT has high precedence"). -/
def prefixUnaryStep : Nat → UnaryOperator → ParserState →
    Option (Except Str (Expression × ParserState))
  | 0, _, _ => none
  | fuel + 1, op, p =>
    ebind (advance_token p) fun p1 =>
    obind2 (parse_expression fuel 6 p1) fun operand p2 =>
    some (Except.ok (Expression.UnaryOperation operand op, p2))

/-- Parser::parse_infix: binary operations and the ASC/DESC postfix arms. -/
def parseInfixForm : Nat → Expression → ParserState →
    Option (Except Str (Expression × ParserState))
  | 0, _, _ => none
  | fuel + 1, left, p =>
    match p.current_token with
    | some Token.Plus => infixBinStep fuel BinaryOperator.Plus 5 left p
    | some Token.Minus => infixBinStep fuel BinaryOperator.Minus 5 left p
    | some Token.Star => infixBinStep fuel BinaryOperator.Multiply 6 left p
    | some Token.Divide => infixBinStep fuel BinaryOperator.Divide 6 left p
    | some Token.Equal => infixBinStep fuel BinaryOperator.Equal 4 left p
    | some Token.NotEqual => infixBinStep fuel BinaryOperator.NotEqual 4 left p
    | some Token.GreaterThan => infixBinStep fuel BinaryOperator.GreaterThan 4 left p
    | some Token.GreaterThanOrEqual =>
      infixBinStep fuel BinaryOperator.GreaterThanOrEqual 4 left p
    | some Token.LessThan => infixBinStep fuel BinaryOperator.LessThan 4 left p
    | some Token.LessThanOrEqual =>
      infixBinStep fuel BinaryOperator.LessThanOrEqual 4 left p
    | some (Token.Keyword Keyword.And) => infixBinStep fuel BinaryOperator.And 3 left p
    | some (Token.Keyword Keyword.Or) => infixBinStep fuel BinaryOperator.Or 2 left p
    | some (Token.Keyword Keyword.Asc) =>
      ebind (advance_token p) fun p1 =>
      some (Except.ok (Expression.UnaryOperation left UnaryOperator.Asc, p1))
    | some (Token.Keyword Keyword.Desc) =>
      ebind (advance_token p) fun p1 =>
      some (Except.ok (Expression.UnaryOperation left UnaryOperator.Desc, p1))
    | some t => some (Except.error ("Unexpected token in infix position: " ++ t.debugStr))
    | none => some (Except.error "Unexpected end of input")

/-- The shared body of the binary-operator arms of Parser::parse_infix:
advance past the operator, parse the right operand at the operator's own
rank, and fold. -/
def infixBinStep : Nat → BinaryOperator → Nat → Expression → ParserState →
    Option (Except Str (Expression × ParserState))
  | 0, _, _, _, _ => none
  | fuel + 1, op, rank, left, p =>
    ebind (advance_token p) fun p1 =>
    obind2 (parse_expression fuel rank p1) fun right p2 =>
    some (Except.ok (Expression.BinaryOperation left op right, p2))

/-- The while loop of Parser::parse_expression: as long as the next
token's precedence strictly exceeds `min`, fold an infix form into the
accumulated left side. -/
def parse_expr_loop : Nat → Nat → Expression → ParserState →
    Option (Except Str (Expression × ParserState))
  | 0, _, _, _ => none
  | fuel + 1, min, left, p =>
    if min < get_precedence p then
      obind2 (parseInfixForm fuel left p) fun left2 p2 =>
      parse_expr_loop fuel min left2 p2
    else some (Except.ok (left, p))

/-- Parser::parse_expression, the Pratt parser entry point: one prefix
form, then the infix loop. -/
def parse_expression : Nat → Nat → ParserState →
    Option (Except Str (Expression × ParserState))
  | 0, _, _ => none
  | fuel + 1, min, p =>
    obind2 (parsePrefixForm fuel p) fun left p1 =>
    parse_expr_loop fuel min left p1

end

/-- Parser::parse_db_type: INT, BOOL, or VARCHAR(length). -/
def parse_db_type (p : ParserState) : Except Str (DBType × ParserState) :=
  match p.current_token with
  | some (Token.Keyword Keyword.Int) =>
    ebindE (advance_token p) fun p1 => Except.ok (DBType.Int, p1)
  | some (Token.Keyword Keyword.Bool) =>
    ebindE (advance_token p) fun p1 => Except.ok (DBType.Bool, p1)
  | some (Token.Keyword Keyword.Varchar) =>
    ebindE (advance_token p) fun p1 =>
    if p1.current_token = some Token.LeftParentheses then
      ebindE (advance_token p1) fun p2 =>
      match p2.current_token with
      | some (Token.Number len) =>
        ebindE (advance_token p2) fun p3 =>
        if p3.current_token = some Token.RightParentheses then
          ebindE (advance_token p3) fun p4 => Except.ok (DBType.Varchar len, p4)
        else Except.error "Expected ) after VARCHAR length"
      | _ => Except.error "Expected number for VARCHAR length"
    else Except.error "Expected ( after VARCHAR"
  | some t => Except.error ("Expected data type, got " ++ t.debugStr)
  | none => Except.error "Unexpected end of input in type definition"

/-- The constraint loop of Parser::parse_column_definition: PRIMARY KEY,
NOT NULL and CHECK(expr) in any order, ended by `,` or `)`. -/
def constraints_loop : Nat → List Constraint → ParserState →
    Option (Except Str (List Constraint × ParserState))
  | 0, _, _ => none
  | fuel + 1, acc, p =>
    match p.current_token with
    | some (Token.Keyword Keyword.Primary) =>
      ebind (advance_token p) fun p1 =>
      if p1.current_token = some (Token.Keyword Keyword.Key) then
        ebind (advance_token p1) fun p2 =>
        constraints_loop fuel (acc ++ [Constraint.PrimaryKey]) p2
      else some (Except.error "Expected KEY after PRIMARY")
    | some (Token.Keyword Keyword.Not) =>
      ebind (advance_token p) fun p1 =>
      if p1.current_token = some (Token.Keyword Keyword.Null) then
        ebind (advance_token p1) fun p2 =>
        constraints_loop fuel (acc ++ [Constraint.NotNull]) p2
      else some (Except.error "Expected NULL after NOT")
    | some (Token.Keyword Keyword.Check) =>
      ebind (advance_token p) fun p1 =>
      if p1.current_token = some Token.LeftParentheses then
        ebind (advance_token p1) fun p2 =>
        obind2 (parse_expression fuel 0 p2) fun ex p3 =>
        if p3.current_token = some Token.RightParentheses then
          ebind (advance_token p3) fun p4 =>
          constraints_loop fuel (acc ++ [Constraint.Check ex]) p4
        else some (Except.error "Expected ) after CHECK expression")
      else some (Except.error "Expected ( after CHECK")
    | some Token.Comma => some (Except.ok (acc, p))
    | some Token.RightParentheses => some (Except.ok (acc, p))
    | some t =>
      some (Except.error ("Unexpected token in column definition: " ++ t.debugStr))
    | none => some (Except.error "Unexpected end of input in column definition")

/-- Parser::parse_column_definition: name, type, then constraints. -/
def parse_column_definition (fuel : Nat) (p : ParserState) :
    Option (Except Str (TableColumn × ParserState)) :=
  match p.current_token with
  | some (Token.Identifier name) =>
    ebind (advance_token p) fun p1 =>
    ebind2 (parse_db_type p1) fun ty p2 =>
    obind2 (constraints_loop fuel [] p2) fun cs p3 =>
    some (Except.ok (⟨name, ty, cs⟩, p3))
  | _ => some (Except.error "Expected column name")

/-- The comma loop of Parser::parse_create_table_statement over column
definitions. -/
def column_defs_loop : Nat → List TableColumn → ParserState →
    Option (Except Str (List TableColumn × ParserState))
  | 0, _, _ => none
  | fuel + 1, acc, p =>
    if p.current_token = some Token.Comma then
      ebind (advance_token p) fun p1 =>
      obind2 (parse_column_definition fuel p1) fun col p2 =>
      column_defs_loop fuel (acc ++ [col]) p2
    else some (Except.ok (acc, p))

/-- The comma loops of Parser::parse_select_statement (both the column
list after the first column and the ORDER BY list after its first
expression have this exact shape). -/
def expr_comma_loop : Nat → List Expression → ParserState →
    Option (Except Str (List Expression × ParserState))
  | 0, _, _ => none
  | fuel + 1, acc, p =>
    if p.current_token = some Token.Comma then
      ebind (advance_token p) fun p1 =>
      obind2 (parse_expression fuel 0 p1) fun ex p2 =>
      expr_comma_loop fuel (acc ++ [ex]) p2
    else some (Except.ok (acc, p))

/-- Parser::parse_select_statement (the SELECT keyword is still current
when it is entered). -/
def parse_select_statement (fuel : Nat) (p : ParserState) :
    Option (Except Str (Statement × ParserState)) :=
  ebind (advance_token p) fun p1 =>
  -- columns, with the special case for SELECT *
  obind2
    (if p1.current_token = some Token.Star then
      ebind (advance_token p1) fun p2 => some (Except.ok ([Expression.Wildcard], p2))
    else
      obind2 (parse_expression fuel 0 p1) fun first p2 =>
      expr_comma_loop fuel [first] p2)
    fun columns p3 =>
  -- mandatory FROM clause and table name
  if p3.current_token = some (Token.Keyword Keyword.From) then
    ebind (advance_token p3) fun p4 =>
    match p4.current_token with
    | some (Token.Identifier table_name) =>
      ebind (advance_token p4) fun p5 =>
      -- optional WHERE clause
      obind2
        (if p5.current_token = some (Token.Keyword Keyword.Where) then
          ebind (advance_token p5) fun p6 =>
          obind2 (parse_expression fuel 0 p6) fun w p7 => some (Except.ok (some w, p7))
        else some (Except.ok (none, p5)))
        fun whereClause p8 =>
      -- optional ORDER BY clause
      obind2
        (if p8.current_token = some (Token.Keyword Keyword.Order) then
          ebind (advance_token p8) fun p9 =>
          if p9.current_token = some (Token.Keyword Keyword.By) then
            ebind (advance_token p9) fun p10 =>
            obind2 (parse_expression fuel 0 p10) fun ob p11 =>
            expr_comma_loop fuel [ob] p11
          else some (Except.error "Expected BY after ORDER")
        else some (Except.ok ([], p8)))
        fun orderby p12 =>
      -- mandatory trailing semicolon
      if p12.current_token = some Token.Semicolon then
        ebind (advance_token p12) fun p13 =>
        some (Except.ok (Statement.Select columns table_name whereClause orderby, p13))
      else some (Except.error "Expected semicolon at the end of the SELECT statement")
    | _ => some (Except.error "Expected table name after FROM")
  else some (Except.error "Expected FROM clause in SELECT statement")

/-- Parser::parse_create_table_statement (the CREATE keyword is still
current when it is entered). -/
def parse_create_table_statement (fuel : Nat) (p : ParserState) :
    Option (Except Str (Statement × ParserState)) :=
  ebind (advance_token p) fun p1 =>
  if p1.current_token = some (Token.Keyword Keyword.Table) then
    ebind (advance_token p1) fun p2 =>
    match p2.current_token with
    | some (Token.Identifier table_name) =>
      ebind (advance_token p2) fun p3 =>
      if p3.current_token = some Token.LeftParentheses then
        ebind (advance_token p3) fun p4 =>
        obind2 (parse_column_definition fuel p4) fun first p5 =>
        obind2 (column_defs_loop fuel [first] p5) fun column_list p6 =>
        if p6.current_token = some Token.RightParentheses then
          ebind (advance_token p6) fun p7 =>
          if p7.current_token = some Token.Semicolon then
            ebind (advance_token p7) fun p8 =>
            some (Except.ok (Statement.CreateTable table_name column_list, p8))
          else
            some (Except.error
              "Expected semicolon at the end of the CREATE TABLE statement")
        else some (Except.error "Expected ) after column definitions")
      else some (Except.error "Expected ( after table name")
    | _ => some (Except.error "Expected table name after CREATE TABLE")
  else some (Except.error "Expected TABLE after CREATE")

/-- Parser::parse_statement: dispatch on the first token. -/
def parse_statement (fuel : Nat) (p : ParserState) :
    Option (Except Str (Statement × ParserState)) :=
  match p.current_token with
  | some (Token.Keyword Keyword.Select) => parse_select_statement fuel p
  | some (Token.Keyword Keyword.Create) => parse_create_table_statement fuel p
  | some t => some (Except.error ("Expected SELECT or CREATE, got " ++ t.debugStr))
  | none => some (Except.error "Empty input")

/-- Parser::new: prime `current_token` with the tokenizer's first item. -/
def parser_new (input : Str) : Except Str ParserState :=
  match Tokenizer.emit (Tokenizer.new input) with
  | [] => Except.ok ⟨none, []⟩
  | Except.ok t :: r => Except.ok ⟨some t, r⟩
  | Except.error e :: _ => Except.error e

/-- Fuel that is always sufficient (shown by the totality theorems). -/
def parse_fuel (p : ParserState) : Nat := 4 * psize p + 16

/-- build_statement (parser.rs): tokenize, construct the parser, parse one
statement.  The `none` (out of fuel) branch is unreachable at this fuel by
the totality theorem; its value is irrelevant. -/
def build_statement (input : Str) : Except Str Statement :=
  match parser_new input with
  | Except.error e => Except.error e
  | Except.ok p =>
    match parse_statement (parse_fuel p) p with
    | some (Except.ok (st, _)) => Except.ok st
    | some (Except.error e) => Except.error e
    | none => Except.error "out of fuel"

/-- Running the Pratt parser alone on an input string, as tests do with
Parser::parse_expression(0); used for the expression-level claims. -/
def parse_expression_entry (input : Str) : Except Str (Expression × ParserState) :=
  match parser_new input with
  | Except.error e => Except.error e
  | Except.ok p =>
    match parse_expression (parse_fuel p) 0 p with
    | some r => r
    | none => Except.error "out of fuel"

def TotS {α : Type} (r : Option (Except Str (α × ParserState))) (p : ParserState) : Prop :=
  ∃ v, r = some v ∧ ∀ x p2, v = Except.ok (x, p2) → psize p2 < psize p

def TotW {α : Type} (r : Option (Except Str (α × ParserState))) (p : ParserState) : Prop :=
  ∃ v, r = some v ∧ ∀ x p2, v = Except.ok (x, p2) → psize p2 ≤ psize p


theorem read_string_go_shrinks (q : Char) :
    ∀ (s : List Char) (acc : List Char), (read_string_go q acc s).2.length ≤ s.length := by
  intro s
  induction s with
  | nil => intro acc; simp [read_string_go]
  | cons c rest ih =>
    intro acc
    simp only [read_string_go]
    split
    · split <;> simp
    · exact Nat.le_trans (ih (acc ++ [c])) (by simp)

theorem dropWhile_length_le (p : Char → Bool) :
    ∀ s : List Char, (s.dropWhile p).length ≤ s.length := by
  intro s
  induction s with
  | nil => simp
  | cons c rest ih =>
    by_cases h : p c <;> simp [List.dropWhile_cons, h] <;> omega

/-- Each tokenizer step that does not report end-of-input consumes at
least one character of its input: scanning makes progress. -/
theorem next_token_progress (s : List Char) :
    (next_token s).1 ≠ Except.ok Token.Eof → (next_token s).2.length < s.length := by
  intro hne
  have hskip : (skip_whitespace s).length ≤ s.length := dropWhile_length_le _ s
  unfold next_token at hne ⊢
  cases hw : skip_whitespace s with
  | nil => simp [hw] at hne
  | cons c rest =>
    rw [hw] at hskip
    simp only [hw] at hne ⊢
    by_cases hd : c.isDigit
    · have : ((c :: rest).dropWhile Char.isDigit).length ≤ rest.length := by
        simpa [List.dropWhile_cons, hd] using dropWhile_length_le Char.isDigit rest
      simp only [hd, if_true]
      simp only [okTok, read_number]
      simp at hskip ⊢
      omega
    · by_cases ha : c.isAlpha ∨ c = '_'
      · have hic : isIdentChar c := by
          rcases ha with h1 | h1 <;> simp [isIdentChar, Char.isAlphanum, h1]
        have : ((c :: rest).dropWhile isIdentChar).length ≤ rest.length := by
          simpa [List.dropWhile_cons, hic] using dropWhile_length_le isIdentChar rest
        simp only [hd, ha, if_false, if_true]
        simp only [okTok, read_identifier_or_keyword]
        simp at hskip ⊢
        omega
      · by_cases hs : c = '"' ∨ c = '\''
        · have := read_string_go_shrinks c rest []
          simp only [hd, ha, hs, if_false, if_true]
          simp only [read_string]
          simp at hskip ⊢
          omega
        · -- single- and two-character punctuation, and the invalid fallback
          have hr : rest.length < s.length := by simp at hskip; omega
          rw [if_neg hd, if_neg ha, if_neg hs]
          clear hne hskip hd ha hs hw
          by_cases h1 : c = '('
          · rw [if_pos h1]; simpa using hr
          rw [if_neg h1]
          by_cases h2 : c = ')'
          · rw [if_pos h2]; simpa using hr
          rw [if_neg h2]
          by_cases h3 : c = ','
          · rw [if_pos h3]; simpa using hr
          rw [if_neg h3]
          by_cases h4 : c = ';'
          · rw [if_pos h4]; simpa using hr
          rw [if_neg h4]
          by_cases h5 : c = '>'
          · rw [if_pos h5]
            split
            all_goals simp_all
            all_goals omega
          rw [if_neg h5]
          by_cases h6 : c = '<'
          · rw [if_pos h6]
            split
            all_goals simp_all
            all_goals omega
          rw [if_neg h6]
          by_cases h7 : c = '='
          · rw [if_pos h7]; simpa using hr
          rw [if_neg h7]
          by_cases h8 : c = '!'
          · rw [if_pos h8]
            split
            all_goals simp_all
            all_goals omega
          rw [if_neg h8]
          by_cases h9 : c = '*'
          · rw [if_pos h9]; simpa using hr
          rw [if_neg h9]
          by_cases h10 : c = '/'
          · rw [if_pos h10]; simpa using hr
          rw [if_neg h10]
          by_cases h11 : c = '+'
          · rw [if_pos h11]; simpa using hr
          rw [if_neg h11]
          by_cases h12 : c = '-'
          · rw [if_pos h12]; simpa using hr
          rw [if_neg h12]
          simpa using hr


/-- Any fuel larger than the input length yields the same item list: the
iterator run is finite, with length bounded by the input length. -/
theorem emitFuel_sufficient :
    ∀ (f1 f2 : Nat) (t : Tokenizer), t.input.length < f1 → t.input.length < f2 →
      Tokenizer.emitFuel f1 t = Tokenizer.emitFuel f2 t := by
  intro f1
  induction f1 using Nat.strong_induction_on with
  | _ f1 ih =>
    intro f2 t h1 h2
    match f1, f2 with
    | fuel1 + 1, fuel2 + 1 =>
      rw [Tokenizer.emitFuel, Tokenizer.emitFuel]
      by_cases he : t.reached_end
      · simp [he]
      · simp only [he, if_false, Bool.false_eq_true]
        by_cases hEof : (next_token t.input).1 = Except.ok Token.Eof
        · simp [hEof]
        · have hlt := next_token_progress t.input hEof
          simp only [hEof, if_false]
          have : Tokenizer.emitFuel fuel1 ⟨(next_token t.input).2, false⟩ =
              Tokenizer.emitFuel fuel2 ⟨(next_token t.input).2, false⟩ :=
            ih fuel1 (by omega) fuel2 ⟨(next_token t.input).2, false⟩
              (by simpa using by omega) (by simpa using by omega)
          simp [this]

/-- Unfolding of `emit` as iterator runs: `emit` is exactly the list of
items `next` yields before it first returns `none`. -/
theorem Tokenizer.emit_eq_next (t : Tokenizer) :
    t.emit = match t.next with
      | (none, _) => []
      | (some r, t2) => r :: t2.emit := by
  rw [Tokenizer.emit, Tokenizer.emitFuel, Tokenizer.next]
  by_cases he : t.reached_end
  · simp [he]
  · simp only [he, if_false, Bool.false_eq_true]
    by_cases hEof : (next_token t.input).1 = Except.ok Token.Eof
    · simp [hEof, Tokenizer.emit, Tokenizer.emitFuel]
    · have hlt := next_token_progress t.input hEof
      simp only [hEof, if_false]
      have : Tokenizer.emitFuel t.input.length ⟨(next_token t.input).2, false⟩ =
          Tokenizer.emit ⟨(next_token t.input).2, false⟩ :=
        emitFuel_sufficient _ _ _ (by simpa using by omega) (by simp)
      simp [this]

/- ===================== Claims ===================== -/

/-- C1: parse_expression(min_rank) parses one prefix form, then while the
next token's rank strictly exceeds min_rank it folds the operator with the
accumulated left side, recursing at the operator's own rank: "2 + 3 * 4"
parses to Plus(2, Multiply(3,4)), "(2 + 3) * 4" to Multiply(Plus(2,3), 4),
and chains of equal-rank operators associate to the left (shown for
arbitrary identifier chains "a - b - c" at rank 5 and "a / b * c" at
rank 6). -/
theorem C1_pratt_precedence_left_assoc :
    (Except.map Prod.fst (parse_expression_entry "2 + 3 * 4") =
      Except.ok (Expression.BinaryOperation (Expression.Number 2) BinaryOperator.Plus
        (Expression.BinaryOperation (Expression.Number 3) BinaryOperator.Multiply
          (Expression.Number 4)))) ∧
    (Except.map Prod.fst (parse_expression_entry "(2 + 3) * 4") =
      Except.ok (Expression.BinaryOperation
        (Expression.BinaryOperation (Expression.Number 2) BinaryOperator.Plus
          (Expression.Number 3)) BinaryOperator.Multiply (Expression.Number 4))) ∧
    (∀ a b c : Str,
      parse_expression 24 0
        ⟨some (Token.Identifier a),
         [Except.ok Token.Minus, Except.ok (Token.Identifier b),
          Except.ok Token.Minus, Except.ok (Token.Identifier c),
          Except.ok Token.Eof]⟩ =
      some (Except.ok
        (Expression.BinaryOperation
          (Expression.BinaryOperation (Expression.Identifier a) BinaryOperator.Minus
            (Expression.Identifier b)) BinaryOperator.Minus (Expression.Identifier c),
         ⟨some Token.Eof, []⟩))) ∧
    (∀ a b c : Str,
      parse_expression 24 0
        ⟨some (Token.Identifier a),
         [Except.ok Token.Divide, Except.ok (Token.Identifier b),
          Except.ok Token.Star, Except.ok (Token.Identifier c),
          Except.ok Token.Eof]⟩ =
      some (Except.ok
        (Expression.BinaryOperation
          (Expression.BinaryOperation (Expression.Identifier a) BinaryOperator.Divide
            (Expression.Identifier b)) BinaryOperator.Multiply (Expression.Identifier c),
         ⟨some Token.Eof, []⟩))) :=
  ⟨by decide, by decide, fun _ _ _ => rfl, fun _ _ _ => rfl⟩

/-- C2: build_statement "SELECT * FROM users;" returns
Select{columns:[Wildcard], from:"users", where:None, orderby:[]} — the *
right after SELECT becomes the dedicated wildcard column marker — while *
in any other position is the multiply operator.  (The wildcard variant is
the one parser.rs line 297 uses; statement.rs omits it from the Expression
enum, see the comment on `Expression`.) -/
theorem C2_select_wildcard :
    (build_statement "SELECT * FROM users;" =
      Except.ok (Statement.Select [Expression.Wildcard] "users" none [])) ∧
    (build_statement "SELECT a * b FROM t;" =
      Except.ok (Statement.Select
        [Expression.BinaryOperation (Expression.Identifier "a")
          BinaryOperator.Multiply (Expression.Identifier "b")] "t" none [])) ∧
    (build_statement "SELECT * , a FROM t;" =
      Except.error "Expected FROM clause in SELECT statement") :=
  ⟨by decide, by decide, by decide⟩

/-- C9: build_statement does not require the input to end after the
statement terminator.  Token-level: whatever single well-formed token
follows the `;` of an otherwise complete SELECT, and whatever (possibly
ill-formed) items follow that token, the parse succeeds, consuming exactly
one item past the terminator (the final state's lookahead is that token
and the tail is untouched); if the single item after `;` is a tokenizer
error, that error fails the whole parse.  String-level instances included. -/
theorem C9_trailing_input_ignored :
    (∀ (t : Token) (tr : List (Except Str Token)),
      parse_statement 64
        ⟨some (Token.Keyword Keyword.Select),
         Except.ok (Token.Identifier "a") :: Except.ok (Token.Keyword Keyword.From) ::
         Except.ok (Token.Identifier "t") :: Except.ok Token.Semicolon ::
         Except.ok t :: tr⟩ =
      some (Except.ok
        (Statement.Select [Expression.Identifier "a"] "t" none [],
         ⟨some t, tr⟩))) ∧
    (∀ (e : Str) (tr : List (Except Str Token)),
      parse_statement 64
        ⟨some (Token.Keyword Keyword.Select),
         Except.ok (Token.Identifier "a") :: Except.ok (Token.Keyword Keyword.From) ::
         Except.ok (Token.Identifier "t") :: Except.ok Token.Semicolon ::
         Except.error e :: tr⟩ =
      some (Except.error e)) ∧
    (build_statement "SELECT a FROM t; garbage ( 'unclosed" =
      Except.ok (Statement.Select [Expression.Identifier "a"] "t" none [])) ∧
    (build_statement "SELECT a FROM t; 'bad" =
      Except.error "Unterminated string starting with '") :=
  ⟨fun _ _ => rfl, fun _ _ => rfl, by decide, by decide⟩

/-- C10: the postfix operators ASC and DESC are accepted wherever an
expression is parsed, not only inside ORDER BY: in a WHERE clause
("SELECT a FROM t WHERE b DESC;" succeeds with where =
UnaryOperation{operand: Identifier("b"), operator: Desc}), on a SELECT
column, and inside a CHECK constraint expression. -/
theorem C10_asc_desc_everywhere :
    (build_statement "SELECT a FROM t WHERE b DESC;" =
      Except.ok (Statement.Select [Expression.Identifier "a"] "t"
        (some (Expression.UnaryOperation (Expression.Identifier "b")
          UnaryOperator.Desc)) [])) ∧
    (build_statement "SELECT a ASC FROM t;" =
      Except.ok (Statement.Select
        [Expression.UnaryOperation (Expression.Identifier "a") UnaryOperator.Asc]
        "t" none [])) ∧
    (build_statement "CREATE TABLE t(id INT CHECK(a DESC));" =
      Except.ok (Statement.CreateTable "t"
        [⟨"id", DBType.Int,
          [Constraint.Check (Expression.UnaryOperation (Expression.Identifier "a")
            UnaryOperator.Desc)]⟩])) :=
  ⟨by decide, by decide, by decide⟩

/-- Helper for the end-marker claim: from any live tokenizer state, the
emitted sequence is a run of non-end-marker items closed by exactly one
end-marker. -/
theorem emit_ends_with_eof :
    ∀ (n : Nat) (t : Tokenizer), t.input.length ≤ n → t.reached_end = false →
      ∃ pre, t.emit = pre ++ [Except.ok Token.Eof] ∧
        ∀ x ∈ pre, x ≠ Except.ok Token.Eof := by
  intro n
  induction n using Nat.strong_induction_on with
  | _ n ih =>
    intro t hlen hlive
    rw [Tokenizer.emit, Tokenizer.emitFuel]
    simp only [hlive, if_false, Bool.false_eq_true]
    by_cases hEof : (next_token t.input).1 = Except.ok Token.Eof
    · exact ⟨[], by simp [hEof], by simp⟩
    · have hlt := next_token_progress t.input hEof
      have hfuel : Tokenizer.emitFuel t.input.length ⟨(next_token t.input).2, false⟩ =
          Tokenizer.emit ⟨(next_token t.input).2, false⟩ :=
        emitFuel_sufficient _ _ _ (by simpa using by omega) (by simp)
      simp only [hEof, if_false]
      rcases n with _ | m
      · omega
      · obtain ⟨pre, hpre, hne⟩ :=
          ih m (by omega) ⟨(next_token t.input).2, false⟩ (by simpa using by omega) rfl
      
        refine ⟨(next_token t.input).1 :: pre, ?_, ?_⟩
        · simp [hfuel, hpre]
        · intro x hx
          rcases List.mem_cons.mp hx with h | h
          · simpa [h] using hEof
          · exact hne x h

/-- C4: for every input string the tokenizer's item sequence is finite and
ends in exactly one end-marker (no earlier item is the end-marker); once
`reached_end` is set the iterator returns `none` forever without
re-emitting or changing state; and tokenizing the empty string yields
exactly the end-marker and no errors. -/
theorem C4_token_stream_eof :
    (∀ s : Str, ∃ pre, (Tokenizer.new s).emit = pre ++ [Except.ok Token.Eof] ∧
      ∀ x ∈ pre, x ≠ Except.ok Token.Eof) ∧
    (∀ t : Tokenizer, t.reached_end = true → t.next = (none, t)) ∧
    ((Tokenizer.new "").emit = [Except.ok Token.Eof]) := by
  refine ⟨fun s => emit_ends_with_eof s.data.length (Tokenizer.new s) (by simp [Tokenizer.new]) rfl,
    fun t ht => by simp [Tokenizer.next, ht], by decide⟩

/-- Witness for C4 at concrete inputs: the exhausted iterator at state
⟨[], true⟩ re-emits nothing, and the empty-input run is the single
end-marker. -/
theorem C4_token_stream_eof_witness :
    Tokenizer.next ⟨[], true⟩ = (none, ⟨[], true⟩) ∧
    (Tokenizer.new "").emit = [Except.ok Token.Eof] :=
  ⟨C4_token_stream_eof.2.1 ⟨[], true⟩ rfl, C4_token_stream_eof.2.2⟩

/-- Helper: the read_string loop copies quote-free characters into the
accumulator verbatim. -/
theorem read_string_go_skips (q : Char) :
    ∀ (pre : List Char) (acc tail : List Char),
      (∀ c ∈ pre, ¬(c = '\'' ∨ c = '"')) →
      read_string_go q acc (pre ++ tail) = read_string_go q (acc ++ pre) tail := by
  intro pre
  induction pre with
  | nil => intro acc tail _; simp
  | cons c pre2 ih =>
    intro acc tail hpre
    have hc : ¬(c = '\'' ∨ c = '"') := hpre c (by simp)
    have : read_string_go q acc ((c :: pre2) ++ tail) =
        read_string_go q (acc ++ [c]) (pre2 ++ tail) := by
      simp only [List.cons_append, read_string_go, hc, if_false]
      rfl
    rw [this, ih (acc ++ [c]) tail (fun d hd => hpre d (by simp [hd]))]
    simp

/-- C5: a string literal opened with one quote character must be closed by
the same one.  For every quote-free interior: closing with the same quote
succeeds with the interior taken literally (any characters, including
newline — there are no escapes); hitting the other quote character yields
the mismatched-quote error (consuming it); reaching end of input yields
the unterminated-string error; and the two messages are distinguishable
for all quote characters. -/
theorem C5_string_quote_errors :
    (∀ (q : Char) (pre rest : List Char),
      (q = '\'' ∨ q = '"') → (∀ c ∈ pre, ¬(c = '\'' ∨ c = '"')) →
      read_string q (q :: (pre ++ q :: rest)) =
        (Except.ok (Token.String (String.mk pre)), rest)) ∧
    (∀ (q q2 : Char) (pre rest : List Char),
      (q = '\'' ∨ q = '"') → (q2 = '\'' ∨ q2 = '"') → q2 ≠ q →
      (∀ c ∈ pre, ¬(c = '\'' ∨ c = '"')) →
      read_string q (q :: (pre ++ q2 :: rest)) =
        (Except.error ("Mismatched quotes: string started with " ++
          String.singleton q ++ " but found " ++ String.singleton q2), rest)) ∧
    (∀ (q : Char) (pre : List Char),
      (∀ c ∈ pre, ¬(c = '\'' ∨ c = '"')) →
      read_string q (q :: pre) =
        (Except.error ("Unterminated string starting with " ++ String.singleton q), [])) ∧
    (∀ q q2 : Char,
      ("Mismatched quotes: string started with " ++ String.singleton q ++
        " but found " ++ String.singleton q2) ≠
      ("Unterminated string starting with " ++ String.singleton q)) := by
  refine ⟨?_, ?_, ?_, ?_⟩
  · intro q pre rest hq hpre
    rw [read_string, List.drop_one, List.tail_cons, read_string_go_skips q pre [] _ hpre]
    simp [read_string_go, hq]
  · intro q q2 pre rest hq hq2 hne hpre
    rw [read_string, List.drop_one, List.tail_cons, read_string_go_skips q pre [] _ hpre]
    simp [read_string_go, hq2, hne]
  · intro q pre hpre
    rw [read_string, List.drop_one, List.tail_cons]
    have := read_string_go_skips q pre [] [] hpre
    simp only [List.append_nil] at this
    rw [this, read_string_go]
  · intro q q2 h
    have h2 := congrArg String.length h
    simp [String.length_append] at h2
    exact absurd h2 (by decide)

/-- Witness for C5 at concrete inputs: tokenizing an interior "a" closed
with the same quote succeeds literally; a double quote inside a
single-quoted literal is the mismatched-quote error; running out of input
is the unterminated error; the two messages differ. -/
theorem C5_string_quote_errors_witness :
    read_string '\'' ('\'' :: (['a'] ++ '\'' :: ['x'])) =
      (Except.ok (Token.String (String.mk ['a'])), ['x']) ∧
    read_string '\'' ('\'' :: (['a'] ++ '"' :: ['x'])) =
      (Except.error ("Mismatched quotes: string started with " ++
        String.singleton '\'' ++ " but found " ++ String.singleton '"'), ['x']) ∧
    read_string '\'' ('\'' :: ['a', '\n']) =
      (Except.error ("Unterminated string starting with " ++ String.singleton '\''), []) ∧
    ("Mismatched quotes: string started with " ++ String.singleton '\'' ++
      " but found " ++ String.singleton '"') ≠
    ("Unterminated string starting with " ++ String.singleton '\'') :=
  ⟨C5_string_quote_errors.1 '\'' ['a'] ['x'] (Or.inl rfl) (by decide),
   C5_string_quote_errors.2.1 '\'' '"' ['a'] ['x'] (Or.inl rfl) (Or.inr rfl)
     (by decide) (by decide),
   C5_string_quote_errors.2.2.1 '\'' ['a', '\n'] (by decide),
   C5_string_quote_errors.2.2.2 '\'' '"'⟩

/-- Helper: every `next_token` branch except the string-literal one wraps
its token in `Ok`; an error therefore implies the first unconsumed
non-whitespace character is a quote. -/
theorem next_token_error_is_string (s : List Char) (e : Str) (r : List Char)
    (h : next_token s = (Except.error e, r)) :
    ∃ rest, skip_whitespace s = '"' :: rest ∨ skip_whitespace s = '\'' :: rest := by
  unfold next_token at h
  cases hw : skip_whitespace s with
  | nil => simp only [hw] at h; exact absurd h (by simp)
  | cons c rest =>
    simp only [hw] at h
    refine ⟨rest, ?_⟩
    by_cases hd : c.isDigit
    · rw [if_pos hd] at h; exact absurd h (by simp [okTok])
    rw [if_neg hd] at h
    by_cases ha : c.isAlpha ∨ c = '_'
    · rw [if_pos ha] at h; exact absurd h (by simp [okTok])
    rw [if_neg ha] at h
    by_cases hs : c = '"' ∨ c = '\''
    · rcases hs with hs | hs <;> subst hs <;> simp
    rw [if_neg hs] at h
    exfalso
    by_cases h1 : c = '('
    · rw [if_pos h1] at h; exact absurd h (by simp)
    rw [if_neg h1] at h
    by_cases h2 : c = ')'
    · rw [if_pos h2] at h; exact absurd h (by simp)
    rw [if_neg h2] at h
    by_cases h3 : c = ','
    · rw [if_pos h3] at h; exact absurd h (by simp)
    rw [if_neg h3] at h
    by_cases h4 : c = ';'
    · rw [if_pos h4] at h; exact absurd h (by simp)
    rw [if_neg h4] at h
    by_cases h5 : c = '>'
    · rw [if_pos h5] at h
      cases rest with
      | nil => exact absurd h (by simp)
      | cons a rr => by_cases hb : a = '=' <;> simp [hb] at h <;> simp_all
    rw [if_neg h5] at h
    by_cases h6 : c = '<'
    · rw [if_pos h6] at h
      cases rest with
      | nil => exact absurd h (by simp)
      | cons a rr => by_cases hb : a = '=' <;> simp [hb] at h <;> simp_all
    rw [if_neg h6] at h
    by_cases h7 : c = '='
    · rw [if_pos h7] at h; exact absurd h (by simp)
    rw [if_neg h7] at h
    by_cases h8 : c = '!'
    · rw [if_pos h8] at h
      cases rest with
      | nil => exact absurd h (by simp)
      | cons a rr => by_cases hb : a = '=' <;> simp [hb] at h <;> simp_all
    rw [if_neg h8] at h
    by_cases h9 : c = '*'
    · rw [if_pos h9] at h; exact absurd h (by simp)
    rw [if_neg h9] at h
    by_cases h10 : c = '/'
    · rw [if_pos h10] at h; exact absurd h (by simp)
    rw [if_neg h10] at h
    by_cases h11 : c = '+'
    · rw [if_pos h11] at h; exact absurd h (by simp)
    rw [if_neg h11] at h
    by_cases h12 : c = '-'
    · rw [if_pos h12] at h; exact absurd h (by simp)
    rw [if_neg h12] at h
    exact absurd h (by simp)

/-- C6: only string-literal failures are tokenizer errors (an error entails
the current character is a quote); an overflowing digit run, a lone `!`
not followed by `=`, and any unrecognized character each produce an `Ok`
invalid-token placeholder, and in each such case the cursor advances past
at least one character, so scanning never stalls. -/
theorem C6_invalid_tokens_not_errors :
    (∀ (s : List Char) (e : Str) (r : List Char), next_token s = (Except.error e, r) →
      ∃ rest, skip_whitespace s = '"' :: rest ∨ skip_whitespace s = '\'' :: rest) ∧
    (∀ (s : List Char) (c : Char) (rest : List Char),
      skip_whitespace s = c :: rest → c.isDigit →
      2 ^ 64 ≤ digitsToNat ((c :: rest).takeWhile Char.isDigit) →
      next_token s = (Except.ok (Token.Invalid '0'), (c :: rest).dropWhile Char.isDigit) ∧
      ((c :: rest).dropWhile Char.isDigit).length < (c :: rest).length) ∧
    (∀ (s : List Char) (rest : List Char),
      skip_whitespace s = '!' :: rest → rest.head? ≠ some '=' →
      next_token s = (Except.ok (Token.Invalid '!'), rest)) ∧
    (∀ (s : List Char) (c : Char) (rest : List Char),
      skip_whitespace s = c :: rest →
      ¬c.isDigit → ¬(c.isAlpha ∨ c = '_') → ¬(c = '"' ∨ c = '\'') →
      c ∉ ['(', ')', ',', ';', '>', '<', '=', '!', '*', '/', '+', '-'] →
      next_token s = (Except.ok (Token.Invalid c), rest)) := by
  refine ⟨next_token_error_is_string, ?_, ?_, ?_⟩
  · intro s c rest hw hd hbig
    have hne : ¬((c :: rest).takeWhile Char.isDigit).isEmpty := by
      simp [List.takeWhile_cons, hd]
    have hlt : ¬(digitsToNat ((c :: rest).takeWhile Char.isDigit) < 2 ^ 64) := by omega
    constructor
    · unfold next_token
      simp only [hw]
      rw [if_pos hd]
      simp only [okTok, read_number, parseU64, hne, if_false, hlt]
      simp
    · have : ((c :: rest).dropWhile Char.isDigit).length ≤ rest.length := by
        simpa [List.dropWhile_cons, hd] using dropWhile_length_le Char.isDigit rest
      simp
      omega
  · intro s rest hw hhd
    unfold next_token
    simp only [hw]
    have h1 : ¬('!'.isDigit = true) := by decide
    have h2 : ¬('!'.isAlpha = true ∨ '!' = '_') := by decide
    have h3 : ¬('!' = '"' ∨ '!' = '\'') := by decide
    rw [if_neg h1, if_neg h2, if_neg h3,
      if_neg (by decide : ¬('!' = '(')), if_neg (by decide : ¬('!' = ')')),
      if_neg (by decide : ¬('!' = ',')), if_neg (by decide : ¬('!' = ';')),
      if_neg (by decide : ¬('!' = '>')), if_neg (by decide : ¬('!' = '<')),
      if_neg (by decide : ¬('!' = '='))]
    rw [if_pos trivial]
    cases rest with
    | nil => rfl
    | cons a rr =>
      have : ¬(a = '=') := by simpa using hhd
      simp_all
  · intro s c rest hw hd ha hq hmem
    simp only [List.mem_cons, not_or] at hmem
    obtain ⟨m1, m2, m3, m4, m5, m6, m7, m8, m9, m10, m11, m12, -⟩ := hmem
    unfold next_token
    simp only [hw]
    rw [if_neg hd, if_neg ha, if_neg hq, if_neg m1, if_neg m2, if_neg m3,
      if_neg m4, if_neg m5, if_neg m6, if_neg m7, if_neg m8, if_neg m9,
      if_neg m10, if_neg m11, if_neg m12]

/-- Witness for C6 at concrete inputs: the 21-digit run overflows to the
invalid marker and is consumed whole; a lone `!` and an unrecognized `@`
each yield an invalid marker consuming one character; and the error case
instantiates on the mismatched-quote input. -/
theorem C6_invalid_tokens_not_errors_witness :
    (∃ rest, skip_whitespace ['\'', 'a', '"'] = '"' :: rest ∨
      skip_whitespace ['\'', 'a', '"'] = '\'' :: rest) ∧
    (next_token ['1', '8', '4', '4', '6', '7', '4', '4', '0', '7', '3', '7', '0',
        '9', '5', '5', '1', '6', '1', '6'] =
      (Except.ok (Token.Invalid '0'), [])) ∧
    (next_token ['!', 'a'] = (Except.ok (Token.Invalid '!'), ['a'])) ∧
    (next_token ['@', 'b'] = (Except.ok (Token.Invalid '@'), ['b'])) := by
  refine ⟨?_, ?_, ?_, ?_⟩
  · exact C6_invalid_tokens_not_errors.1 ['\'', 'a', '"']
      ("Mismatched quotes: string started with " ++ String.singleton '\'' ++
        " but found " ++ String.singleton '"') [] (by decide)
  · exact (C6_invalid_tokens_not_errors.2.1
      ['1', '8', '4', '4', '6', '7', '4', '4', '0', '7', '3', '7', '0',
        '9', '5', '5', '1', '6', '1', '6']
      '1' ['8', '4', '4', '6', '7', '4', '4', '0', '7', '3', '7', '0',
        '9', '5', '5', '1', '6', '1', '6'] (by decide) (by decide) (by decide)).1
  · exact C6_invalid_tokens_not_errors.2.2.1 ['!', 'a'] ['a'] (by decide) (by decide)
  · exact C6_invalid_tokens_not_errors.2.2.2 ['@', 'b'] '@' ['b'] (by decide)
      (by decide) (by decide) (by decide) (by decide)

/-- Helper: `Char.ofNat` of a valid codepoint round-trips through
`Char.toNat`. -/
theorem toNat_charOfNat (m : Nat) (h : m < 55296) : (Char.ofNat m).toNat = m := by
  rw [Char.ofNat, dif_pos (Or.inl h)]
  rfl

/-- Helper: uppercasing an identifier character never produces a space
(`Char.toUpper` only moves lowercase latin letters down by 32). -/
theorem toUpper_ident_ne_space (c : Char) (h : isIdentChar c = true) :
    c.toUpper ≠ ' ' := by
  intro heq
  have htn := congrArg Char.toNat heq
  rw [Char.toUpper] at htn
  by_cases hc : c.toNat ≥ 97 ∧ c.toNat ≤ 122
  · rw [if_pos hc] at htn
    rw [toNat_charOfNat (c.toNat - 32) (by omega)] at htn
    have : (' ').toNat = 32 := by decide
    omega
  · rw [if_neg hc] at htn
    have hcs : c = ' ' := Char.eq_of_val_eq (by
      have h32 : (' ').toNat = 32 := by decide
      have : c.val.toNat = (' ').val.toNat := htn
      exact UInt32.toNat.inj this)
    rw [hcs] at h
    exact absurd h (by decide)

/-- C8: the scanner's identifier/keyword run consists only of
alphanumeric/underscore characters and never contains whitespace, so its
uppercasing can never equal the two-word literal "NOT NULL": the keyword
table entry for "NOT NULL" (tokenizer.rs line 88) is unreachable dead
code, and the text NOT NULL always tokenizes as the two separate keyword
tokens NOT and NULL. -/
theorem C8_not_null_arm_dead :
    (∀ (s : List Char) (c : Char), c ∈ s.takeWhile isIdentChar →
      isIdentChar c = true ∧ c.isWhitespace = false) ∧
    (∀ s : List Char,
      String.mk (List.map Char.toUpper (s.takeWhile isIdentChar)) ≠ "NOT NULL") ∧
    ((Tokenizer.new "NOT NULL").emit =
      [Except.ok (Token.Keyword Keyword.Not), Except.ok (Token.Keyword Keyword.Null),
       Except.ok Token.Eof]) := by
  refine ⟨?_, ?_, by decide⟩
  · intro s c hc
    have hp : isIdentChar c = true := List.mem_takeWhile_imp hc
    refine ⟨hp, ?_⟩
    cases hw : c.isWhitespace
    · rfl
    · exfalso
      rw [Char.isWhitespace] at hw
      simp only [Bool.or_eq_true, decide_eq_true_eq] at hw
      rcases hw with ((rfl | rfl) | rfl) | rfl <;> exact absurd hp (by decide)
  · intro s h
    have hdata : List.map Char.toUpper (s.takeWhile isIdentChar) = "NOT NULL".data :=
      congrArg String.data h
    have hsp : ' ' ∈ List.map Char.toUpper (s.takeWhile isIdentChar) := by
      rw [hdata]; decide
    obtain ⟨c, hc, hcu⟩ := List.mem_map.mp hsp
    exact toUpper_ident_ne_space c (List.mem_takeWhile_imp hc) hcu

/-- Witness for C8 at a concrete input: the run scanned from "NOT NULL"
itself is just "NOT", which uppercases to "NOT" and not to "NOT NULL",
and its characters are non-whitespace identifier characters. -/
theorem C8_not_null_arm_dead_witness :
    (isIdentChar 'N' = true ∧ 'N'.isWhitespace = false) ∧
    String.mk (List.map Char.toUpper (("NOT NULL".data).takeWhile isIdentChar)) ≠
      "NOT NULL" :=
  ⟨C8_not_null_arm_dead.1 "NOT NULL".data 'N' (by decide),
   C8_not_null_arm_dead.2.1 "NOT NULL".data⟩


/- ===================== Totality of the parser =====================

`TotS r p` / `TotW r p` say a fueled parser result `r` from state `p` did
not run out of fuel and that on success the new state is strictly /
weakly smaller.  The induction below shows fuel `4 * psize p + k` (small
k) always suffices, which is the termination argument for the Rust
parser's recursion. -/

theorem advance_le (p p2 : ParserState) (h : advance_token p = Except.ok p2) :
    psize p2 ≤ psize p := by
  unfold advance_token at h
  cases hr : p.rest with
  | nil =>
    rw [hr] at h
    cases h
    simp only [psize, hr]
    cases p.current_token <;> simp
  | cons x r =>
    rw [hr] at h
    cases x with
    | ok t =>
      cases h
      simp only [psize, hr]
      cases p.current_token <;> simp <;> omega
    | error e => cases h

theorem advance_lt (p p2 : ParserState) (t : Token)
    (hc : p.current_token = some t) (h : advance_token p = Except.ok p2) :
    psize p2 < psize p := by
  unfold advance_token at h
  cases hr : p.rest with
  | nil =>
    rw [hr] at h
    cases h
    simp [psize, hr, hc]
  | cons x r =>
    rw [hr] at h
    cases x with
    | ok t2 =>
      cases h
      simp [psize, hr, hc]
    | error e => cases h

theorem TotS_err {α : Type} (p : ParserState) (e : Str) :
    TotS (α := α) (some (Except.error e)) p :=
  ⟨Except.error e, rfl, fun x p2 h => by cases h⟩

theorem TotW_err {α : Type} (p : ParserState) (e : Str) :
    TotW (α := α) (some (Except.error e)) p :=
  ⟨Except.error e, rfl, fun x p2 h => by cases h⟩

theorem TotS_ret {α : Type} (p p2 : ParserState) (v : α) (h : psize p2 < psize p) :
    TotS (some (Except.ok (v, p2))) p :=
  ⟨Except.ok (v, p2), rfl, fun x p3 hh => by cases hh; exact h⟩

theorem TotW_ret {α : Type} (p p2 : ParserState) (v : α) (h : psize p2 ≤ psize p) :
    TotW (some (Except.ok (v, p2))) p :=
  ⟨Except.ok (v, p2), rfl, fun x p3 hh => by cases hh; exact h⟩

theorem TotS_mono {α : Type} {r : Option (Except Str (α × ParserState))}
    {q p : ParserState} (h : TotS r q) (hle : psize q ≤ psize p) : TotS r p := by
  obtain ⟨v, hv, hb⟩ := h
  exact ⟨v, hv, fun x p2 hh => by have := hb x p2 hh; omega⟩

theorem TotW_mono {α : Type} {r : Option (Except Str (α × ParserState))}
    {q p : ParserState} (h : TotW r q) (hle : psize q ≤ psize p) : TotW r p := by
  obtain ⟨v, hv, hb⟩ := h
  exact ⟨v, hv, fun x p2 hh => by have := hb x p2 hh; omega⟩

theorem TotW_of_TotS {α : Type} {r : Option (Except Str (α × ParserState))}
    {p : ParserState} (h : TotS r p) : TotW r p := by
  obtain ⟨v, hv, hb⟩ := h
  exact ⟨v, hv, fun x p2 hh => Nat.le_of_lt (hb x p2 hh)⟩

theorem TotS_of_TotW_lt {α : Type} {r : Option (Except Str (α × ParserState))}
    {q p : ParserState} (h : TotW r q) (hlt : psize q < psize p) : TotS r p := by
  obtain ⟨v, hv, hb⟩ := h
  exact ⟨v, hv, fun x p2 hh => by have := hb x p2 hh; omega⟩

theorem TotS_ebind {β : Type} (r : Except Str ParserState)
    (f : ParserState → Option (Except Str (β × ParserState))) (p : ParserState)
    (hf : ∀ p1, r = Except.ok p1 → TotS (f p1) p) :
    TotS (ebind r f) p := by
  cases r with
  | error e => exact TotS_err _ _
  | ok p1 => exact hf p1 rfl

theorem TotW_ebind {β : Type} (r : Except Str ParserState)
    (f : ParserState → Option (Except Str (β × ParserState))) (p : ParserState)
    (hf : ∀ p1, r = Except.ok p1 → TotW (f p1) p) :
    TotW (ebind r f) p := by
  cases r with
  | error e => exact TotW_err _ _
  | ok p1 => exact hf p1 rfl

theorem TotS_ebind2 {α β : Type} (r : Except Str (α × ParserState))
    (f : α → ParserState → Option (Except Str (β × ParserState))) (p : ParserState)
    (hf : ∀ a p1, r = Except.ok (a, p1) → TotS (f a p1) p) :
    TotS (ebind2 r f) p := by
  cases r with
  | error e => exact TotS_err _ _
  | ok ap =>
    obtain ⟨a, p1⟩ := ap
    exact hf a p1 rfl

theorem TotW_ebind2 {α β : Type} (r : Except Str (α × ParserState))
    (f : α → ParserState → Option (Except Str (β × ParserState))) (p : ParserState)
    (hf : ∀ a p1, r = Except.ok (a, p1) → TotW (f a p1) p) :
    TotW (ebind2 r f) p := by
  cases r with
  | error e => exact TotW_err _ _
  | ok ap =>
    obtain ⟨a, p1⟩ := ap
    exact hf a p1 rfl

theorem TotS_obind2 {α β : Type} {r : Option (Except Str (α × ParserState))}
    (f : α → ParserState → Option (Except Str (β × ParserState))) {p : ParserState}
    (hr : TotS r p)
    (hf : ∀ a p2, psize p2 < psize p → TotS (f a p2) p) :
    TotS (obind2 r f) p := by
  obtain ⟨v, hv, hb⟩ := hr
  rw [hv]
  cases v with
  | error e => exact TotS_err _ _
  | ok ap =>
    obtain ⟨a, p2⟩ := ap
    exact hf a p2 (hb a p2 rfl)

theorem TotW_obind2_S {α β : Type} {r : Option (Except Str (α × ParserState))}
    (f : α → ParserState → Option (Except Str (β × ParserState))) {p : ParserState}
    (hr : TotS r p)
    (hf : ∀ a p2, psize p2 < psize p → TotW (f a p2) p) :
    TotW (obind2 r f) p := by
  obtain ⟨v, hv, hb⟩ := hr
  rw [hv]
  cases v with
  | error e => exact TotW_err _ _
  | ok ap =>
    obtain ⟨a, p2⟩ := ap
    exact hf a p2 (hb a p2 rfl)

theorem TotW_obind2_W {α β : Type} {r : Option (Except Str (α × ParserState))}
    (f : α → ParserState → Option (Except Str (β × ParserState))) {p : ParserState}
    (hr : TotW r p)
    (hf : ∀ a p2, psize p2 ≤ psize p → TotW (f a p2) p) :
    TotW (obind2 r f) p := by
  obtain ⟨v, hv, hb⟩ := hr
  rw [hv]
  cases v with
  | error e => exact TotW_err _ _
  | ok ap =>
    obtain ⟨a, p2⟩ := ap
    exact hf a p2 (hb a p2 rfl)

/-- Simultaneous totality of the mutual Pratt-parser block: with fuel
exceeding four times the remaining token count (plus a small constant), no
function runs out of fuel, and every success strictly (weakly, for the
loop) decreases the remaining token count.  The step functions are entered
with the operator still current, hence their `current_token = some t`
hypotheses. -/
theorem expr_parser_total : ∀ fuel : Nat,
    (∀ p, 4 * psize p + 3 ≤ fuel → TotS (parsePrefixForm fuel p) p) ∧
    (∀ op p t, p.current_token = some t → 4 * psize p + 2 ≤ fuel →
      TotS (prefixUnaryStep fuel op p) p) ∧
    (∀ left p, 4 * psize p + 3 ≤ fuel → TotS (parseInfixForm fuel left p) p) ∧
    (∀ op rank left p t, p.current_token = some t → 4 * psize p + 2 ≤ fuel →
      TotS (infixBinStep fuel op rank left p) p) ∧
    (∀ min left p, 4 * psize p + 5 ≤ fuel → TotW (parse_expr_loop fuel min left p) p) ∧
    (∀ min p, 4 * psize p + 4 ≤ fuel → TotS (parse_expression fuel min p) p) := by
  intro fuel
  induction fuel with
  | zero =>
    exact ⟨fun p h => absurd h (by omega),
      fun op p t hc h => absurd h (by omega),
      fun l p h => absurd h (by omega),
      fun op r l p t hc h => absurd h (by omega),
      fun m l p h => absurd h (by omega),
      fun m p h => absurd h (by omega)⟩
  | succ fuel ih =>
    obtain ⟨ihPF, ihPU, ihIF, ihBS, ihLoop, ihExpr⟩ := ih
    refine ⟨?_, ?_, ?_, ?_, ?_, ?_⟩
    · -- parsePrefixForm
      intro p hpre
      simp only [parsePrefixForm]
      cases hc : p.current_token with
      | none => exact TotS_err _ _
      | some t =>
        cases t with
        | Number n =>
          apply TotS_ebind
          intro p1 ha
          exact TotS_ret _ _ _ (advance_lt p p1 _ hc ha)
        | String s2 =>
          apply TotS_ebind
          intro p1 ha
          exact TotS_ret _ _ _ (advance_lt p p1 _ hc ha)
        | Identifier id =>
          apply TotS_ebind
          intro p1 ha
          exact TotS_ret _ _ _ (advance_lt p p1 _ hc ha)
        | Plus => exact ihPU UnaryOperator.Plus p _ hc (by omega)
        | Minus => exact ihPU UnaryOperator.Minus p _ hc (by omega)
        | Keyword k =>
          cases k with
          | True =>
            apply TotS_ebind
            intro p1 ha
            exact TotS_ret _ _ _ (advance_lt p p1 _ hc ha)
          | False =>
            apply TotS_ebind
            intro p1 ha
            exact TotS_ret _ _ _ (advance_lt p p1 _ hc ha)
          | Not => exact ihPU UnaryOperator.Not p _ hc (by omega)
          | _ => exact TotS_err _ _
        | LeftParentheses =>
          apply TotS_ebind
          intro p1 ha
          have h1 : psize p1 < psize p := advance_lt p p1 _ hc ha
          apply TotS_obind2
          · exact TotS_mono (ihExpr 0 p1 (by omega)) (by omega)
          · intro ex p2 h2
            by_cases hrp : p2.current_token = some Token.RightParentheses
            · rw [if_pos hrp]
              apply TotS_ebind
              intro p3 ha2
              exact TotS_ret _ _ _ (Nat.lt_trans (advance_lt p2 p3 _ hrp ha2) h2)
            · rw [if_neg hrp]
              exact TotS_err _ _
        | _ => exact TotS_err _ _
    · -- prefixUnaryStep
      intro op p t hc hpre
      simp only [prefixUnaryStep]
      apply TotS_ebind
      intro p1 ha
      have h1 : psize p1 < psize p := advance_lt p p1 t hc ha
      apply TotS_obind2
      · exact TotS_mono (ihExpr 6 p1 (by omega)) (by omega)
      · intro operand p2 h2
        exact TotS_ret _ _ _ h2
    · -- parseInfixForm
      intro left p hpre
      simp only [parseInfixForm]
      cases hc : p.current_token with
      | none => exact TotS_err _ _
      | some t =>
        cases t with
        | Plus => exact ihBS BinaryOperator.Plus 5 left p _ hc (by omega)
        | Minus => exact ihBS BinaryOperator.Minus 5 left p _ hc (by omega)
        | Star => exact ihBS BinaryOperator.Multiply 6 left p _ hc (by omega)
        | Divide => exact ihBS BinaryOperator.Divide 6 left p _ hc (by omega)
        | Equal => exact ihBS BinaryOperator.Equal 4 left p _ hc (by omega)
        | NotEqual => exact ihBS BinaryOperator.NotEqual 4 left p _ hc (by omega)
        | GreaterThan => exact ihBS BinaryOperator.GreaterThan 4 left p _ hc (by omega)
        | GreaterThanOrEqual =>
          exact ihBS BinaryOperator.GreaterThanOrEqual 4 left p _ hc (by omega)
        | LessThan => exact ihBS BinaryOperator.LessThan 4 left p _ hc (by omega)
        | LessThanOrEqual =>
          exact ihBS BinaryOperator.LessThanOrEqual 4 left p _ hc (by omega)
        | Keyword k =>
          cases k with
          | And => exact ihBS BinaryOperator.And 3 left p _ hc (by omega)
          | Or => exact ihBS BinaryOperator.Or 2 left p _ hc (by omega)
          | Asc =>
            apply TotS_ebind
            intro p1 ha
            exact TotS_ret _ _ _ (advance_lt p p1 _ hc ha)
          | Desc =>
            apply TotS_ebind
            intro p1 ha
            exact TotS_ret _ _ _ (advance_lt p p1 _ hc ha)
          | _ => exact TotS_err _ _
        | _ => exact TotS_err _ _
    · -- infixBinStep
      intro op rank left p t hc hpre
      simp only [infixBinStep]
      apply TotS_ebind
      intro p1 ha
      have h1 : psize p1 < psize p := advance_lt p p1 t hc ha
      apply TotS_obind2
      · exact TotS_mono (ihExpr rank p1 (by omega)) (by omega)
      · intro right p2 h2
        exact TotS_ret _ _ _ h2
    · -- parse_expr_loop
      intro min left p hpre
      simp only [parse_expr_loop]
      by_cases hcond : min < get_precedence p
      · rw [if_pos hcond]
        apply TotW_obind2_S
        · exact ihIF left p (by omega)
        · intro left2 p2 h2
          exact TotW_mono (ihLoop min left2 p2 (by omega)) (by omega)
      · rw [if_neg hcond]
        exact TotW_ret _ _ _ (Nat.le_refl _)
    · -- parse_expression
      intro min p hpre
      simp only [parse_expression]
      apply TotS_obind2
      · exact ihPF p (by omega)
      · intro left p1 h1
        exact TotS_of_TotW_lt (ihLoop min left p1 (by omega)) h1

theorem ebindE_ok {β : Type} {r : Except Str ParserState} {f : ParserState → Except Str β}
    {b : β} (h : ebindE r f = Except.ok b) :
    ∃ p1, r = Except.ok p1 ∧ f p1 = Except.ok b := by
  cases r with
  | error e => exact absurd h (by simp [ebindE])
  | ok p1 => exact ⟨p1, rfl, h⟩

/-- parse_db_type consumes at least one token on success. -/
theorem parse_db_type_lt (p p2 : ParserState) (ty : DBType)
    (h : parse_db_type p = Except.ok (ty, p2)) : psize p2 < psize p := by
  unfold parse_db_type at h
  cases hc : p.current_token with
  | none => rw [hc] at h; cases h
  | some t =>
    rw [hc] at h
    cases t with
    | Keyword k =>
      cases k with
      | Int =>
        obtain ⟨p1, ha, hf⟩ := ebindE_ok h
        cases hf
        exact advance_lt p _ _ hc ha
      | Bool =>
        obtain ⟨p1, ha, hf⟩ := ebindE_ok h
        cases hf
        exact advance_lt p _ _ hc ha
      | Varchar =>
        obtain ⟨p1, ha, hf⟩ := ebindE_ok h
        have h1 : psize p1 < psize p := advance_lt p p1 _ hc ha
        by_cases hlp : p1.current_token = some Token.LeftParentheses
        · rw [if_pos hlp] at hf
          obtain ⟨p2x, ha2, hf2⟩ := ebindE_ok hf
          have h2 : psize p2x < psize p1 := advance_lt p1 p2x _ hlp ha2
          cases hn : p2x.current_token with
          | none => rw [hn] at hf2; cases hf2
          | some t2 =>
            rw [hn] at hf2
            cases t2 with
            | Number len =>
              obtain ⟨p3, ha3, hf3⟩ := ebindE_ok hf2
              have h3 : psize p3 < psize p2x := advance_lt p2x p3 _ hn ha3
              by_cases hrp : p3.current_token = some Token.RightParentheses
              · rw [if_pos hrp] at hf3
                obtain ⟨p4, ha4, hf4⟩ := ebindE_ok hf3
                have h4 : psize p4 < psize p3 := advance_lt p3 p4 _ hrp ha4
                cases hf4
                omega
              · rw [if_neg hrp] at hf3; cases hf3
            | _ => cases hf2
        · rw [if_neg hlp] at hf; cases hf
      | _ => cases h
    | _ => cases h

/-- Totality and consumption bound of the constraint loop. -/
theorem constraints_loop_total : ∀ (fuel : Nat) (acc : List Constraint) (p : ParserState),
    4 * psize p + 6 ≤ fuel → TotW (constraints_loop fuel acc p) p := by
  intro fuel
  induction fuel with
  | zero => intro acc p h; exact absurd h (by omega)
  | succ fuel ih =>
    intro acc p hpre
    have hExpr := (expr_parser_total fuel).2.2.2.2.2
    simp only [constraints_loop]
    cases hc : p.current_token with
    | none => exact TotW_err _ _
    | some t =>
      cases t with
      | Comma => exact TotW_ret _ _ _ (Nat.le_refl _)
      | RightParentheses => exact TotW_ret _ _ _ (Nat.le_refl _)
      | Keyword k =>
        cases k with
        | Primary =>
          apply TotW_ebind
          intro p1 ha
          have h1 : psize p1 < psize p := advance_lt p p1 _ hc ha
          by_cases hk : p1.current_token = some (Token.Keyword Keyword.Key)
          · rw [if_pos hk]
            apply TotW_ebind
            intro p2 ha2
            have h2 : psize p2 < psize p1 := advance_lt p1 p2 _ hk ha2
            exact TotW_mono (ih _ p2 (by omega)) (by omega)
          · rw [if_neg hk]
            exact TotW_err _ _
        | Not =>
          apply TotW_ebind
          intro p1 ha
          have h1 : psize p1 < psize p := advance_lt p p1 _ hc ha
          by_cases hk : p1.current_token = some (Token.Keyword Keyword.Null)
          · rw [if_pos hk]
            apply TotW_ebind
            intro p2 ha2
            have h2 : psize p2 < psize p1 := advance_lt p1 p2 _ hk ha2
            exact TotW_mono (ih _ p2 (by omega)) (by omega)
          · rw [if_neg hk]
            exact TotW_err _ _
        | Check =>
          apply TotW_ebind
          intro p1 ha
          have h1 : psize p1 < psize p := advance_lt p p1 _ hc ha
          by_cases hlp : p1.current_token = some Token.LeftParentheses
          · rw [if_pos hlp]
            apply TotW_ebind
            intro p2 ha2
            have h2 : psize p2 < psize p1 := advance_lt p1 p2 _ hlp ha2
            apply TotW_obind2_S
            · exact TotS_mono (hExpr 0 p2 (by omega)) (by omega)
            · intro ex p3 h3
              by_cases hrp : p3.current_token = some Token.RightParentheses
              · rw [if_pos hrp]
                apply TotW_ebind
                intro p4 ha4
                have h4 : psize p4 < psize p3 := advance_lt p3 p4 _ hrp ha4
                exact TotW_mono (ih _ p4 (by omega)) (by omega)
              · rw [if_neg hrp]
                exact TotW_err _ _
          · rw [if_neg hlp]
            exact TotW_err _ _
        | _ => exact TotW_err _ _
      | _ => exact TotW_err _ _

/-- Totality of a column definition (consumes at least the name). -/
theorem column_definition_total (fuel : Nat) (p : ParserState)
    (hpre : 4 * psize p + 8 ≤ fuel) : TotS (parse_column_definition fuel p) p := by
  simp only [parse_column_definition]
  cases hc : p.current_token with
  | none => exact TotS_err _ _
  | some t =>
    cases t with
    | Identifier name =>
      apply TotS_ebind
      intro p1 ha
      have h1 : psize p1 < psize p := advance_lt p p1 _ hc ha
      apply TotS_ebind2
      intro ty p2 hdb
      have h2 : psize p2 < psize p1 := parse_db_type_lt p1 p2 ty hdb
      apply TotS_obind2
      · exact TotS_of_TotW_lt (constraints_loop_total fuel [] p2 (by omega)) (by omega)
      · intro cs p3 h3
        exact TotS_ret _ _ _ h3
    | _ => exact TotS_err _ _

/-- Totality of the column-definition comma loop. -/
theorem column_defs_loop_total : ∀ (fuel : Nat) (acc : List TableColumn) (p : ParserState),
    4 * psize p + 10 ≤ fuel → TotW (column_defs_loop fuel acc p) p := by
  intro fuel
  induction fuel with
  | zero => intro acc p h; exact absurd h (by omega)
  | succ fuel ih =>
    intro acc p hpre
    simp only [column_defs_loop]
    by_cases hcm : p.current_token = some Token.Comma
    · rw [if_pos hcm]
      apply TotW_ebind
      intro p1 ha
      have h1 : psize p1 < psize p := advance_lt p p1 _ hcm ha
      apply TotW_obind2_S
      · exact TotS_mono (column_definition_total fuel p1 (by omega)) (by omega)
      · intro col p2 h2
        exact TotW_mono (ih _ p2 (by omega)) (by omega)
    · rw [if_neg hcm]
      exact TotW_ret _ _ _ (Nat.le_refl _)

/-- Totality of the expression comma loop. -/
theorem expr_comma_loop_total : ∀ (fuel : Nat) (acc : List Expression) (p : ParserState),
    4 * psize p + 6 ≤ fuel → TotW (expr_comma_loop fuel acc p) p := by
  intro fuel
  induction fuel with
  | zero => intro acc p h; exact absurd h (by omega)
  | succ fuel ih =>
    intro acc p hpre
    have hExpr := (expr_parser_total fuel).2.2.2.2.2
    simp only [expr_comma_loop]
    by_cases hcm : p.current_token = some Token.Comma
    · rw [if_pos hcm]
      apply TotW_ebind
      intro p1 ha
      have h1 : psize p1 < psize p := advance_lt p p1 _ hcm ha
      apply TotW_obind2_S
      · exact TotS_mono (hExpr 0 p1 (by omega)) (by omega)
      · intro ex p2 h2
        exact TotW_mono (ih _ p2 (by omega)) (by omega)
    · rw [if_neg hcm]
      exact TotW_ret _ _ _ (Nat.le_refl _)

/-- Totality of SELECT statement parsing (entered with SELECT current). -/
theorem select_total (fuel : Nat) (p : ParserState) (t : Token)
    (hc : p.current_token = some t) (hpre : 4 * psize p + 12 ≤ fuel) :
    TotS (parse_select_statement fuel p) p := by
  have hExpr := (expr_parser_total fuel).2.2.2.2.2
  simp only [parse_select_statement]
  apply TotS_ebind
  intro p1 ha
  have h1 : psize p1 < psize p := advance_lt p p1 t hc ha
  refine TotS_of_TotW_lt ?_ h1
  apply TotW_obind2_S
  · -- the column list consumes at least one token
    by_cases hstar : p1.current_token = some Token.Star
    · rw [if_pos hstar]
      apply TotS_ebind
      intro p2 ha2
      exact TotS_ret _ _ _ (advance_lt p1 p2 _ hstar ha2)
    · rw [if_neg hstar]
      apply TotS_obind2
      · exact hExpr 0 p1 (by omega)
      · intro first p2 h2
        exact TotS_of_TotW_lt (expr_comma_loop_total fuel [first] p2 (by omega)) h2
  · intro columns p3 h3
    by_cases hfrom : p3.current_token = some (Token.Keyword Keyword.From)
    · rw [if_pos hfrom]
      apply TotW_ebind
      intro p4 ha4
      have h4 : psize p4 < psize p3 := advance_lt p3 p4 _ hfrom ha4
      cases hid : p4.current_token with
      | none => exact TotW_err _ _
      | some t4 =>
        cases t4 with
        | Identifier table_name =>
          apply TotW_ebind
          intro p5 ha5
          have h5 : psize p5 < psize p4 := advance_lt p4 p5 _ hid ha5
          apply TotW_obind2_S
          · -- WHERE clause result is strictly below p1
            by_cases hw : p5.current_token = some (Token.Keyword Keyword.Where)
            · rw [if_pos hw]
              apply TotS_ebind
              intro p6 ha6
              have h6 : psize p6 < psize p5 := advance_lt p5 p6 _ hw ha6
              apply TotS_obind2
              · exact TotS_mono (hExpr 0 p6 (by omega)) (by omega)
              · intro w p7 h7
                exact TotS_ret _ _ _ h7
            · rw [if_neg hw]
              exact TotS_ret _ _ _ (by omega)
          · intro whereClause p8 h8
            apply TotW_obind2_S
            · -- ORDER BY result is strictly below p1
              by_cases ho : p8.current_token = some (Token.Keyword Keyword.Order)
              · rw [if_pos ho]
                apply TotS_ebind
                intro p9 ha9
                have h9 : psize p9 < psize p8 := advance_lt p8 p9 _ ho ha9
                by_cases hb : p9.current_token = some (Token.Keyword Keyword.By)
                · rw [if_pos hb]
                  apply TotS_ebind
                  intro p10 ha10
                  have h10 : psize p10 < psize p9 := advance_lt p9 p10 _ hb ha10
                  apply TotS_obind2
                  · exact TotS_mono (hExpr 0 p10 (by omega)) (by omega)
                  · intro ob p11 h11
                    exact TotS_of_TotW_lt
                      (expr_comma_loop_total fuel [ob] p11 (by omega)) (by omega)
                · rw [if_neg hb]
                  exact TotS_err _ _
              · rw [if_neg ho]
                exact TotS_ret _ _ _ (by omega)
            · intro orderby p12 h12
              by_cases hs : p12.current_token = some Token.Semicolon
              · rw [if_pos hs]
                apply TotW_ebind
                intro p13 ha13
                have h13 : psize p13 < psize p12 := advance_lt p12 p13 _ hs ha13
                exact TotW_ret _ _ _ (by omega)
              · rw [if_neg hs]
                exact TotW_err _ _
        | _ => exact TotW_err _ _
    · rw [if_neg hfrom]
      exact TotW_err _ _

/-- Totality of CREATE TABLE statement parsing (entered with CREATE
current). -/
theorem create_total (fuel : Nat) (p : ParserState) (t : Token)
    (hc : p.current_token = some t) (hpre : 4 * psize p + 14 ≤ fuel) :
    TotS (parse_create_table_statement fuel p) p := by
  simp only [parse_create_table_statement]
  apply TotS_ebind
  intro p1 ha
  have h1 : psize p1 < psize p := advance_lt p p1 t hc ha
  refine TotS_of_TotW_lt ?_ h1
  by_cases ht : p1.current_token = some (Token.Keyword Keyword.Table)
  · rw [if_pos ht]
    apply TotW_ebind
    intro p2 ha2
    have h2 : psize p2 < psize p1 := advance_lt p1 p2 _ ht ha2
    cases hid : p2.current_token with
    | none => exact TotW_err _ _
    | some t2 =>
      cases t2 with
      | Identifier table_name =>
        apply TotW_ebind
        intro p3 ha3
        have h3 : psize p3 < psize p2 := advance_lt p2 p3 _ hid ha3
        by_cases hlp : p3.current_token = some Token.LeftParentheses
        · rw [if_pos hlp]
          apply TotW_ebind
          intro p4 ha4
          have h4 : psize p4 < psize p3 := advance_lt p3 p4 _ hlp ha4
          apply TotW_obind2_S
          · exact TotS_mono (column_definition_total fuel p4 (by omega)) (by omega)
          · intro first p5 h5
            apply TotW_obind2_W
            · exact TotW_mono (column_defs_loop_total fuel [first] p5 (by omega)) (by omega)
            · intro column_list p6 h6
              by_cases hrp : p6.current_token = some Token.RightParentheses
              · rw [if_pos hrp]
                apply TotW_ebind
                intro p7 ha7
                have h7 : psize p7 < psize p6 := advance_lt p6 p7 _ hrp ha7
                by_cases hsemi : p7.current_token = some Token.Semicolon
                · rw [if_pos hsemi]
                  apply TotW_ebind
                  intro p8 ha8
                  have h8 : psize p8 < psize p7 := advance_lt p7 p8 _ hsemi ha8
                  exact TotW_ret _ _ _ (by omega)
                · rw [if_neg hsemi]
                  exact TotW_err _ _
              · rw [if_neg hrp]
                exact TotW_err _ _
        · rw [if_neg hlp]
          exact TotW_err _ _
      | _ => exact TotW_err _ _
  · rw [if_neg ht]
    exact TotW_err _ _

/-- Totality of statement parsing: sufficient fuel is linear in the
remaining token count. -/
theorem parse_statement_total (fuel : Nat) (p : ParserState)
    (hpre : 4 * psize p + 14 ≤ fuel) : TotS (parse_statement fuel p) p := by
  simp only [parse_statement]
  cases hc : p.current_token with
  | none => exact TotS_err _ _
  | some t =>
    cases t with
    | Keyword k =>
      cases k with
      | Select => exact select_total fuel p _ hc (by omega)
      | Create => exact create_total fuel p _ hc (by omega)
      | _ => exact TotS_err _ _
    | _ => exact TotS_err _ _

/-- build_statement never hits the out-of-fuel branch: `parse_fuel`
suffices. -/
theorem build_statement_no_fuel_exhaustion (input : Str) (p : ParserState)
    (h : parser_new input = Except.ok p) :
    ∃ r, parse_statement (parse_fuel p) p = some r := by
  obtain ⟨v, hv, _⟩ := parse_statement_total (parse_fuel p) p (by simp [parse_fuel])
  exact ⟨v, hv⟩

/-- C7: parsing terminates for every finite input.  Each tokenizer step on
non-exhausted input consumes at least one character; with fuel linear in
the remaining token count (which is bounded by the input length) neither
expression nor statement parsing ever exhausts its fuel, i.e. the Rust
recursion, whose depth the fuel mirrors, is bounded linearly by the input
length. -/
theorem C7_parsing_terminates :
    (∀ s : List Char, (next_token s).1 ≠ Except.ok Token.Eof →
      (next_token s).2.length < s.length) ∧
    (∀ (fuel min : Nat) (p : ParserState), 4 * psize p + 4 ≤ fuel →
      parse_expression fuel min p ≠ none) ∧
    (∀ (fuel : Nat) (p : ParserState), 4 * psize p + 14 ≤ fuel →
      parse_statement fuel p ≠ none) := by
  refine ⟨next_token_progress, ?_, ?_⟩
  · intro fuel min p hpre
    obtain ⟨v, hv, _⟩ := (expr_parser_total fuel).2.2.2.2.2 min p hpre
    simp [hv]
  · intro fuel p hpre
    obtain ⟨v, hv, _⟩ := parse_statement_total fuel p hpre
    simp [hv]

/-- Witness for C7 at concrete inputs: a one-character input makes strict
tokenizer progress, and concrete small parser states with the stated fuel
do not exhaust it. -/
theorem C7_parsing_terminates_witness :
    ((next_token ['1']).1 ≠ Except.ok Token.Eof ∧ (next_token ['1']).2.length < 1) ∧
    (4 * psize ⟨some (Token.Number 1), [Except.ok Token.Eof]⟩ + 4 ≤ 12 ∧
      parse_expression 12 0 ⟨some (Token.Number 1), [Except.ok Token.Eof]⟩ ≠ none) ∧
    (4 * psize ⟨none, []⟩ + 14 ≤ 14 ∧ parse_statement 14 ⟨none, []⟩ ≠ none) :=
  ⟨⟨by decide, C7_parsing_terminates.1 ['1'] (by decide)⟩,
   ⟨by decide, C7_parsing_terminates.2.1 12 0 _ (by decide)⟩,
   ⟨by decide, C7_parsing_terminates.2.2 14 _ (by decide)⟩⟩

/-- C3: each of the four malformed inputs fails with a non-empty error
message ("SELECT id;" without FROM, "CREATE TABLE t(id INT)" without the
terminator, the expression "(5 + 3" with an unmatched parenthesis, and a
column whose type keyword is unrecognized), and the embedded parser is
total: it returns Ok or Err on every input (the fueled computation never
hits its out-of-fuel branch). -/
theorem C3_malformed_inputs_error :
    (build_statement "SELECT id;" =
      Except.error "Expected FROM clause in SELECT statement" ∧
      "Expected FROM clause in SELECT statement" ≠ "") ∧
    (build_statement "CREATE TABLE t(id INT)" =
      Except.error "Expected semicolon at the end of the CREATE TABLE statement" ∧
      "Expected semicolon at the end of the CREATE TABLE statement" ≠ "") ∧
    (parse_expression_entry "(5 + 3" = Except.error "Expected closing parenthesis" ∧
      "Expected closing parenthesis" ≠ "") ∧
    (build_statement "CREATE TABLE t(age INVALID);" =
      Except.error "Expected data type, got Identifier(\"INVALID\")" ∧
      "Expected data type, got Identifier(\"INVALID\")" ≠ "") ∧
    (∀ (input : Str) (p : ParserState), parser_new input = Except.ok p →
      parse_statement (parse_fuel p) p ≠ none) := by
  refine ⟨⟨by decide, by decide⟩, ⟨by decide, by decide⟩, ⟨by decide, by decide⟩,
    ⟨by decide, by decide⟩, ?_⟩
  intro input p h
  obtain ⟨r, hr⟩ := build_statement_no_fuel_exhaustion input p h
  simp [hr]

/-- Witness for C3 at a concrete input: the parser state primed from
"SELECT id;" parses to a definite (error) result rather than running out
of fuel. -/
theorem C3_malformed_inputs_error_witness :
    parser_new "SELECT id;" =
      Except.ok ⟨some (Token.Keyword Keyword.Select),
        [Except.ok (Token.Identifier "id"), Except.ok Token.Semicolon,
         Except.ok Token.Eof]⟩ ∧
    parse_statement
      (parse_fuel ⟨some (Token.Keyword Keyword.Select),
        [Except.ok (Token.Identifier "id"), Except.ok Token.Semicolon,
         Except.ok Token.Eof]⟩)
      ⟨some (Token.Keyword Keyword.Select),
        [Except.ok (Token.Identifier "id"), Except.ok Token.Semicolon,
         Except.ok Token.Eof]⟩ ≠ none :=
  ⟨by decide, C3_malformed_inputs_error.2.2.2.2 "SELECT id;" _ (by decide)⟩
